import Mathlib

/-!
Verification development for the pplx_indexer market settlement service.

The definitions below are a shallow embedding of the system's core:
* the SQLite entity store of `src/services/database.js` (the `markets` table,
  the `operations_journal` table, the wrapped transactions, the eligibility
  query `getMarketsToProcess`, and startup recovery `recoverPendingOperations`),
* the settlement pipeline of `src/services/blockchain.js`
  (`processMarketAndSettleOnChain`, `executeSettlementLogic`) together with the
  oracle-response handling of `src/services/aiService.js`
  (`getMarketSettlementAnalysis`),
* the guarded scheduler of `src/jobs/marketProcessor.js`
  (`checkAndProcessMarkets` and its `isProcessing` flag).

External collaborators (the chain RPC, the oracle, timestamps) are modelled as
explicit environment values; SQL timestamps (`CURRENT_TIMESTAMP`,
`Date.now()/1000`) are a `now : Int` parameter.  JavaScript string truthiness
(`if (x)` on a possibly-missing string) is modelled by `jsTruthy`.
-/

/-- A row of the `markets` table (see the `CREATE TABLE markets` schema in
`database.js`).  `winningTokenId` is kept as a string, as in the schema. -/
structure MarketRow where
  conditionId : String
  marketCreator : String
  marketQuestion : Option String := none
  marketEndTime : Option Int := none
  fetchedEndTime : Bool := false
  processedForSettlement : Bool := false
  isSettledOnChain : Bool := false
  winningTokenId : Option String := none
  lastOnChainCheck : Option Int := none
  retries : Nat := 0
  createdAt : Int := 0
  updatedAt : Int := 0
  deriving DecidableEq

/-- Status column of the `operations_journal` table. -/
inductive JStatus
  | pending
  | completed
  | failed
  deriving DecidableEq

/-- Whether a journal status is `'pending'`. -/
def JStatus.isPending : JStatus → Bool
  | .pending => true
  | _ => false

/-- The JSON payload stored in the journal's `data` column.  Each mutating
operation stores at most one of these fields; a missing field is `none`
(JavaScript `undefined` after `JSON.parse`). -/
structure JData where
  marketCreator : Option String := none
  marketEndTime : Option Int := none
  isSettled : Option Bool := none
  marketQuestion : Option String := none
  winningTokenId : Option String := none
  deriving DecidableEq

/-- A row of the `operations_journal` table. -/
structure JournalRow where
  id : Nat
  operation : String
  conditionId : String
  data : Option JData := none
  status : JStatus := .pending
  deriving DecidableEq

/-- The durable store: both tables plus the AUTOINCREMENT counter for the
journal's `id` column. -/
structure DBState where
  markets : List MarketRow
  journal : List JournalRow
  nextJournalId : Nat
  deriving DecidableEq

/-- JavaScript truthiness of a string-valued field that may be absent:
`undefined`/`null` and the empty string are falsy. -/
def jsTruthy : Option String → Bool
  | some v => !(v == "")
  | none => false

/-- `getMarket`: `SELECT * FROM markets WHERE conditionId = ?` (first row). -/
def getMarket (s : DBState) (cid : String) : Option MarketRow :=
  s.markets.find? (fun r => r.conditionId == cid)

/-- Number of `markets` rows with the given `conditionId`. -/
def countRows (cid : String) (ms : List MarketRow) : Nat :=
  (ms.filter (fun r => r.conditionId == cid)).length

/-- A SQL `UPDATE markets SET ... WHERE conditionId = ? AND <extraCond>`:
every matching row is rewritten by `f`, and the `markets_updated_at` trigger
refreshes `updatedAt` on each updated row.  The boolean is
`result.changes > 0`. -/
def sqlUpdate (cid : String) (extraCond : MarketRow → Bool) (f : MarketRow → MarketRow)
    (now : Int) (ms : List MarketRow) : List MarketRow × Bool :=
  (ms.map (fun r =>
      if r.conditionId == cid && extraCond r then { f r with updatedAt := now } else r),
   ms.any (fun r => r.conditionId == cid && extraCond r))

/-- The `INSERT ... ON CONFLICT(conditionId) DO UPDATE SET marketCreator =
excluded.marketCreator, updatedAt = CURRENT_TIMESTAMP WHERE markets.marketCreator
!= excluded.marketCreator` of `addOrUpdateMarket`. -/
def upsertMarketRows (cid creator : String) (now : Int) (ms : List MarketRow) :
    List MarketRow × Bool :=
  if ms.any (fun r => r.conditionId == cid) then
    (ms.map (fun r =>
        if r.conditionId == cid && !(r.marketCreator == creator)
        then { r with marketCreator := creator, updatedAt := now } else r),
     ms.any (fun r => r.conditionId == cid && !(r.marketCreator == creator)))
  else
    (ms ++ [{ conditionId := cid, marketCreator := creator,
              createdAt := now, updatedAt := now }], true)

/-- The mutating entity-store operations (one constructor per exported
mutator of `database.js`). -/
inductive OpCall
  | addOrUpdateMarket (conditionId marketCreator : String)
  | updateMarketEndTime (conditionId : String) (marketEndTime : Int)
  | updateMarketQuestion (conditionId marketQuestion : String)
  | setMarketProcessedForSettlement (conditionId : String)
  | updateMarketSettledOnChain (conditionId : String) (isSettled : Bool)
  | updateMarketWinningTokenId (conditionId winningTokenId : String)
  | incrementMarketRetryCount (conditionId : String)
  | resetMarketRetryCount (conditionId : String)
  | resetMarketProcessedStatus (conditionId : String)
  deriving DecidableEq

/-- The `operation` tag each mutator writes to the journal. -/
def OpCall.tag : OpCall → String
  | .addOrUpdateMarket .. => "addOrUpdateMarket"
  | .updateMarketEndTime .. => "updateMarketEndTime"
  | .updateMarketQuestion .. => "updateMarketQuestion"
  | .setMarketProcessedForSettlement .. => "setMarketProcessedForSettlement"
  | .updateMarketSettledOnChain .. => "updateMarketSettledOnChain"
  | .updateMarketWinningTokenId .. => "updateMarketWinningTokenId"
  | .incrementMarketRetryCount .. => "incrementMarketRetryCount"
  | .resetMarketRetryCount .. => "resetMarketRetryCount"
  | .resetMarketProcessedStatus .. => "resetMarketProcessedStatus"

/-- The `conditionId` each mutator targets. -/
def OpCall.cid : OpCall → String
  | .addOrUpdateMarket c _ => c
  | .updateMarketEndTime c _ => c
  | .updateMarketQuestion c _ => c
  | .setMarketProcessedForSettlement c => c
  | .updateMarketSettledOnChain c _ => c
  | .updateMarketWinningTokenId c _ => c
  | .incrementMarketRetryCount c => c
  | .resetMarketRetryCount c => c
  | .resetMarketProcessedStatus c => c

/-- The `data` column each mutator writes to the journal
(`JSON.stringify` of the mutation's input, or NULL). -/
def OpCall.payload : OpCall → Option JData
  | .addOrUpdateMarket _ c => some { marketCreator := some c }
  | .updateMarketEndTime _ t => some { marketEndTime := some t }
  | .updateMarketQuestion _ q => some { marketQuestion := some q }
  | .setMarketProcessedForSettlement _ => none
  | .updateMarketSettledOnChain _ b => some { isSettled := some b }
  | .updateMarketWinningTokenId _ w => some { winningTokenId := some w }
  | .incrementMarketRetryCount _ => none
  | .resetMarketRetryCount _ => none
  | .resetMarketProcessedStatus _ => none

/-- The main SQL statement of each mutator, applied to the `markets` table. -/
def OpCall.mutate (now : Int) : OpCall → List MarketRow → List MarketRow × Bool
  | .addOrUpdateMarket cid c => upsertMarketRows cid c now
  | .updateMarketEndTime cid t =>
      -- WHERE conditionId = ? AND (marketEndTime IS NULL OR marketEndTime != ?)
      sqlUpdate cid (fun r => !(r.marketEndTime == some t))
        (fun r => { r with marketEndTime := some t, fetchedEndTime := true }) now
  | .updateMarketQuestion cid q =>
      sqlUpdate cid (fun _ => true) (fun r => { r with marketQuestion := some q }) now
  | .setMarketProcessedForSettlement cid =>
      sqlUpdate cid (fun _ => true) (fun r => { r with processedForSettlement := true }) now
  | .updateMarketSettledOnChain cid b =>
      sqlUpdate cid (fun _ => true)
        (fun r => { r with isSettledOnChain := b, lastOnChainCheck := some now }) now
  | .updateMarketWinningTokenId cid w =>
      sqlUpdate cid (fun _ => true) (fun r => { r with winningTokenId := some w }) now
  | .incrementMarketRetryCount cid =>
      sqlUpdate cid (fun _ => true) (fun r => { r with retries := r.retries + 1 }) now
  | .resetMarketRetryCount cid =>
      sqlUpdate cid (fun _ => true) (fun r => { r with retries := 0 }) now
  | .resetMarketProcessedStatus cid =>
      sqlUpdate cid (fun _ => true) (fun r => { r with processedForSettlement := false }) now

/-- Step (a) of every mutating transaction: `INSERT INTO operations_journal
(operation, conditionId, data) VALUES (?, ?, ?)` (status defaults to
`'pending'`). -/
def journalInsert (c : OpCall) (s : DBState) : DBState :=
  { s with
    journal := s.journal ++
      [{ id := s.nextJournalId, operation := c.tag, conditionId := c.cid,
         data := c.payload }],
    nextJournalId := s.nextJournalId + 1 }

/-- The WHERE clause of the completion step: `conditionId = ? AND operation =
? AND status = 'pending'`. -/
def journalMatches (tag cid : String) (r : JournalRow) : Bool :=
  r.conditionId == cid && r.operation == tag && r.status.isPending

/-- Step (c) of every mutating transaction: `UPDATE operations_journal SET
status = 'completed' WHERE conditionId = ? AND operation = ? AND status =
'pending'`. -/
def journalComplete (tag cid : String) (s : DBState) : DBState :=
  { s with
    journal := s.journal.map (fun r =>
      if journalMatches tag cid r then { r with status := .completed } else r) }

/-- A successful run of a mutating operation: journal insert, main statement,
journal completion, all committed.  The boolean is the operation's return
value (`result.changes > 0`). -/
def applyOp (c : OpCall) (now : Int) (s : DBState) : DBState × Bool :=
  let s1 := journalInsert c s
  let p := c.mutate now s1.markets
  let s2 : DBState := { s1 with markets := p.1 }
  (journalComplete c.tag c.cid s2, p.2)

/-- Throws injected at a numbered step of a transaction body (0 = the journal
insert, 1 = the main statement, 2 = the journal completion). -/
def stepGuard {ε : Type} (fault : Nat → Option ε) (i : Nat) : Except ε Unit :=
  match fault i with
  | some e => .error e
  | none => .ok ()

/-- The callback passed to `withTransaction` by each mutator, with fault
injection at each of its three statements. -/
def opBody {ε : Type} (fault : Nat → Option ε) (c : OpCall) (now : Int) (s : DBState) :
    Except ε (DBState × Bool) :=
  (stepGuard fault 0).bind (fun _ =>
    let s1 := journalInsert c s
    (stepGuard fault 1).bind (fun _ =>
      let p := c.mutate now s1.markets
      let s2 : DBState := { s1 with markets := p.1 }
      (stepGuard fault 2).bind (fun _ =>
        Except.ok (journalComplete c.tag c.cid s2, p.2))))

/-- `withTransaction` of `database.js`: BEGIN, run the callback, COMMIT;
on any raise, ROLLBACK (restoring the pre-transaction state) and rethrow the
error to the caller. -/
def withTransaction {ε : Type} (body : DBState → Except ε (DBState × Bool))
    (s : DBState) : Except ε Bool × DBState :=
  match body s with
  | .ok p => (.ok p.2, p.1)
  | .error e => (.error e, s)

/-- A mutating operation with fault injection, run through `withTransaction`. -/
def runOpFaulty {ε : Type} (fault : Nat → Option ε) (c : OpCall) (now : Int)
    (s : DBState) : Except ε Bool × DBState :=
  withTransaction (opBody fault c now) s

/-- The first injected fault among the three steps, in execution order. -/
def firstInjected {ε : Type} (fault : Nat → Option ε) : Option ε :=
  (fault 0).orElse (fun _ => (fault 1).orElse (fun _ => fault 2))

/-- `maxRetries` constant of `getMarketsToProcess`. -/
def marketMaxRetries : Nat := 3

/-- The WHERE clause of `getMarketsToProcess`. -/
def eligibleRow (settlementBuffer currentTime : Int) (r : MarketRow) : Bool :=
  r.fetchedEndTime &&
  r.marketEndTime.isSome &&
  (match r.marketEndTime with
   | some t => decide (t + settlementBuffer < currentTime)
   | none => false) &&
  !r.processedForSettlement &&
  !r.isSettledOnChain &&
  decide (r.retries < marketMaxRetries)

/-- `ORDER BY marketEndTime ASC` comparison. -/
def endTimeLE (a b : MarketRow) : Prop :=
  a.marketEndTime.getD 0 ≤ b.marketEndTime.getD 0

instance : DecidableRel endTimeLE := fun _ _ => Int.decLe _ _

instance : IsTotal MarketRow endTimeLE := ⟨fun _ _ => Int.le_total _ _⟩

instance : IsTrans MarketRow endTimeLE := ⟨fun _ _ _ hab hbc => le_trans hab hbc⟩

/-- `getMarketsToProcess`: the eligibility query, ordered by ascending
`marketEndTime`. -/
def getMarketsToProcess (settlementBuffer currentTime : Int) (s : DBState) :
    List MarketRow :=
  (s.markets.filter (eligibleRow settlementBuffer currentTime)).insertionSort endTimeLE

/-- The eligibility predicate exactly as the specification states it:
end time known (fetched flag set and non-null), `endTime + settlementDelay <
now`, not yet processed for settlement, not yet settled on-chain, and fewer
than 3 retries. -/
def claimEligible (settlementDelay now : Int) (m : MarketRow) : Prop :=
  m.fetchedEndTime = true ∧
  (∃ t, m.marketEndTime = some t ∧ t + settlementDelay < now) ∧
  m.processedForSettlement = false ∧
  m.isSettledOnChain = false ∧
  m.retries < 3

theorem eligibleRow_iff (buf now : Int) (m : MarketRow) :
    eligibleRow buf now m = true ↔ claimEligible buf now m := by
  unfold eligibleRow claimEligible marketMaxRetries
  cases h : m.marketEndTime with
  | none => simp [h]
  | some t => simp [h, and_assoc]

/-- C1: for every store state and current time, `getMarketsToProcess` returns
an entity iff its end time is known, `endTime + settlementDelay < now`, it is
neither processed for settlement nor settled on-chain, and its retry count is
strictly below the maximum of 3; and the returned list is ordered by
ascending `marketEndTime`. -/
theorem C1_eligibility_query (buf now : Int) (s : DBState) :
    (∀ m : MarketRow,
        m ∈ getMarketsToProcess buf now s ↔ m ∈ s.markets ∧ claimEligible buf now m) ∧
    (getMarketsToProcess buf now s).Pairwise
      (fun a b => ∀ ta tb, a.marketEndTime = some ta → b.marketEndTime = some tb →
        ta ≤ tb) := by
  constructor
  · intro m
    rw [getMarketsToProcess, List.mem_insertionSort, List.mem_filter, eligibleRow_iff]
  · have hs : (getMarketsToProcess buf now s).Pairwise endTimeLE :=
      List.sorted_insertionSort endTimeLE _
    exact hs.imp (fun {a b} hab ta tb hta htb => by
      simpa [endTimeLE, hta, htb] using hab)

/-- C3: every mutating entity-store operation runs inside `withTransaction`;
if any of its steps raises, the whole transaction is rolled back — the
resulting store (both the `markets` table and the `operations_journal` table)
equals the store before the call — and the first raised error propagates
unmodified to the caller. -/
theorem C3_transaction_rollback {ε : Type} (fault : Nat → Option ε) (c : OpCall)
    (now : Int) (s : DBState) (e : ε)
    (h : (runOpFaulty fault c now s).1 = .error e) :
    (runOpFaulty fault c now s).2 = s ∧ firstInjected fault = some e := by
  unfold runOpFaulty withTransaction opBody stepGuard at h ⊢
  unfold firstInjected
  cases h0 : fault 0 <;> cases h1 : fault 1 <;> cases h2 : fault 2 <;>
    simp [h0, h1, h2, Except.bind, Option.orElse] at h ⊢ <;> simp [h]

/-- Concrete demo fault: the operation's main statement (step 1) raises. -/
def c3FaultDemo : Nat → Option Nat := fun i => if i = 1 then some 7 else none

/-- Demo condition id. -/
def cidDemo : String := "0xAA"

/-- Demo creator address. -/
def creatorDemo : String := "0xCREATOR"

/-- An empty store. -/
def emptyDB : DBState := { markets := [], journal := [], nextJournalId := 1 }

theorem C3_transaction_rollback_witness :
    (runOpFaulty c3FaultDemo (.incrementMarketRetryCount cidDemo) 5 emptyDB).2
        = emptyDB ∧ firstInjected c3FaultDemo = some 7 :=
  C3_transaction_rollback c3FaultDemo (.incrementMarketRetryCount cidDemo) 5 emptyDB 7
    (by rfl)

theorem countRows_map_preserve (cid : String) (g : MarketRow → MarketRow)
    (hg : ∀ r, (g r).conditionId = r.conditionId) :
    ∀ ms : List MarketRow, countRows cid (ms.map g) = countRows cid ms := by
  intro ms
  induction ms with
  | nil => rfl
  | cons a ms ih =>
    unfold countRows at *
    simp only [List.map_cons, List.filter_cons, hg]
    by_cases h : (a.conditionId == cid) = true
    · simp only [h, if_true, List.length_cons, ih]
    · simp only [h, if_false, Bool.false_eq_true, ih]

theorem countRows_le_one (cid : String) :
    ∀ ms : List MarketRow, (ms.map (fun r => r.conditionId)).Nodup →
      countRows cid ms ≤ 1 := by
  intro ms
  induction ms with
  | nil => intro _; simp [countRows]
  | cons a ms ih =>
    intro hN
    rw [List.map_cons, List.nodup_cons] at hN
    unfold countRows at *
    rw [List.filter_cons]
    by_cases h : (a.conditionId == cid) = true
    · have hcid : a.conditionId = cid := by simpa using h
      have hnil : ms.filter (fun r => r.conditionId == cid) = [] := by
        rw [List.filter_eq_nil_iff]
        intro r hr hc
        exact hN.1 (by rw [hcid, ← show r.conditionId = cid by simpa using hc]
                       exact List.mem_map.mpr ⟨r, hr, rfl⟩)
      simp [h, hnil]
    · simp only [h, if_false, Bool.false_eq_true]
      exact ih hN.2

theorem countRows_pos_of_any (cid : String) (ms : List MarketRow)
    (h : ms.any (fun r => r.conditionId == cid) = true) : 1 ≤ countRows cid ms := by
  rcases List.any_eq_true.mp h with ⟨r, hr, hrc⟩
  have hmem : r ∈ ms.filter (fun r => r.conditionId == cid) :=
    List.mem_filter.mpr ⟨hr, hrc⟩
  have := List.length_pos.mpr (List.ne_nil_of_mem hmem)
  unfold countRows
  omega

theorem upsert_creator_after (cid creator : String) (t : Int) (ms : List MarketRow) :
    ∀ r ∈ (upsertMarketRows cid creator t ms).1,
      r.conditionId = cid → r.marketCreator = creator := by
  intro r hr hcid
  unfold upsertMarketRows at hr
  by_cases hex : (ms.any (fun r => r.conditionId == cid)) = true
  · rw [if_pos hex] at hr
    rcases List.mem_map.mp hr with ⟨a, _, rfl⟩
    by_cases hc : (a.conditionId == cid && !(a.marketCreator == creator)) = true
    · simp [hc]
    · rw [if_neg hc] at hcid ⊢
      simp only [Bool.and_eq_true, Bool.not_eq_true', beq_iff_eq, beq_eq_false_iff_ne,
        not_and, not_not] at hc
      exact hc hcid
  · rw [if_neg hex] at hr
    rcases List.mem_append.mp hr with h | h
    · exact absurd (List.any_eq_true.mpr ⟨r, h, by simpa using hcid⟩) hex
    · rw [List.mem_singleton] at h
      rw [h]
  

theorem upsert_any_after (cid creator : String) (t : Int) (ms : List MarketRow) :
    ((upsertMarketRows cid creator t ms).1).any (fun r => r.conditionId == cid) = true := by
  unfold upsertMarketRows
  by_cases hex : (ms.any (fun r => r.conditionId == cid)) = true
  · rw [if_pos hex]
    rcases List.any_eq_true.mp hex with ⟨a, ha, hac⟩
    apply List.any_eq_true.mpr
    refine ⟨_, List.mem_map.mpr ⟨a, ha, rfl⟩, ?_⟩
    by_cases hc : (a.conditionId == cid && !(a.marketCreator == creator)) = true
    · rw [if_pos hc]
      exact hac
    · rw [if_neg hc]
      exact hac
  · rw [if_neg hex]
    apply List.any_eq_true.mpr
    exact ⟨_, List.mem_append.mpr (Or.inr (List.mem_singleton.mpr rfl)), by simp⟩

theorem upsert_second_id (cid creator : String) (t : Int) (ms : List MarketRow)
    (hall : ∀ r ∈ ms, r.conditionId = cid → r.marketCreator = creator)
    (hex : ms.any (fun r => r.conditionId == cid) = true) :
    (upsertMarketRows cid creator t ms).1 = ms := by
  unfold upsertMarketRows
  rw [if_pos hex]
  have hid : ∀ r ∈ ms, (if r.conditionId == cid && !(r.marketCreator == creator)
      then { r with marketCreator := creator, updatedAt := t } else r) = r := by
    intro r hr
    have hfalse : (r.conditionId == cid && !(r.marketCreator == creator)) = false := by
      by_cases h1 : r.conditionId = cid
      · have := hall r hr h1
        simp [h1, this]
      · simp [h1]
    rw [hfalse]
    simp
  rw [List.map_congr_left hid, List.map_id']

theorem upsert_countRows (cid creator : String) (t : Int) (ms : List MarketRow)
    (hN : (ms.map (fun r => r.conditionId)).Nodup) :
    countRows cid (upsertMarketRows cid creator t ms).1 = 1 := by
  unfold upsertMarketRows
  by_cases hex : (ms.any (fun r => r.conditionId == cid)) = true
  · rw [if_pos hex]
    have hg : ∀ r : MarketRow,
        ((if r.conditionId == cid && !(r.marketCreator == creator)
          then { r with marketCreator := creator, updatedAt := t } else r) :
            MarketRow).conditionId = r.conditionId := by
      intro r
      by_cases hc : (r.conditionId == cid && !(r.marketCreator == creator)) = true <;>
        simp [hc]
    rw [countRows_map_preserve cid _ hg ms]
    exact le_antisymm (countRows_le_one cid ms hN) (countRows_pos_of_any cid ms hex)
  · rw [if_neg hex]
    unfold countRows
    rw [List.filter_append]
    have h1 : ms.filter (fun r => r.conditionId == cid) = [] := by
      rw [List.filter_eq_nil_iff]
      intro a ha hc
      exact hex (List.any_eq_true.mpr ⟨a, ha, hc⟩)
    simp [h1]

/-- C5: calling `addOrUpdateMarket` twice with the same id and the same
creator is idempotent on the `markets` table: the second call leaves the
table — every row and every field, `updatedAt` included — exactly as after
the first call, never creates a second row, and after the first call there is
exactly one row for the id. -/
theorem C5_upsert_idempotent (s : DBState) (cid creator : String) (t1 t2 : Int)
    (hN : (s.markets.map (fun r => r.conditionId)).Nodup) :
    ((applyOp (.addOrUpdateMarket cid creator) t2
        (applyOp (.addOrUpdateMarket cid creator) t1 s).1).1).markets
      = ((applyOp (.addOrUpdateMarket cid creator) t1 s).1).markets ∧
    countRows cid ((applyOp (.addOrUpdateMarket cid creator) t1 s).1).markets = 1 := by
  have hm1 : ((applyOp (.addOrUpdateMarket cid creator) t1 s).1).markets
      = (upsertMarketRows cid creator t1 s.markets).1 := rfl
  have hm2 : ∀ s' : DBState, ((applyOp (.addOrUpdateMarket cid creator) t2 s').1).markets
      = (upsertMarketRows cid creator t2 s'.markets).1 := fun _ => rfl
  rw [hm2, hm1]
  refine ⟨?_, upsert_countRows cid creator t1 s.markets hN⟩
  exact upsert_second_id cid creator t2 _
    (upsert_creator_after cid creator t1 s.markets)
    (upsert_any_after cid creator t1 s.markets)

/-- A one-market demo store. -/
def oneMarketDB : DBState :=
  { markets := [{ conditionId := cidDemo, marketCreator := creatorDemo,
                  createdAt := 10, updatedAt := 10 }],
    journal := [], nextJournalId := 1 }

theorem C5_upsert_idempotent_witness :
    ((applyOp (.addOrUpdateMarket cidDemo creatorDemo) 30
        (applyOp (.addOrUpdateMarket cidDemo creatorDemo) 20 oneMarketDB).1).1).markets
      = ((applyOp (.addOrUpdateMarket cidDemo creatorDemo) 20 oneMarketDB).1).markets ∧
    countRows cidDemo
        ((applyOp (.addOrUpdateMarket cidDemo creatorDemo) 20 oneMarketDB).1).markets = 1 :=
  C5_upsert_idempotent oneMarketDB cidDemo creatorDemo 20 30 (by decide)

/-- The oracle's parsed JSON response.  `answer = none` models the literal
JSON `null`; a missing `reasoning` field is the empty string, which is falsy
in JavaScript exactly like `""`. -/
structure AIParsed where
  answer : Option String := none
  reasoning : String := ""
  deriving DecidableEq

/-- The non-null object `getMarketSettlementAnalysis` returns. -/
structure AIResult where
  answer : String
  reasoning : String
  deriving DecidableEq

/-- `getMarketSettlementAnalysis` of `aiService.js`, as a function of the
parsed oracle response (`none` models an API error, empty content, or
unparseable JSON).  Case 1: `answer === null` is auto-settled as `"NO"` with
the annotated reasoning.  Case 2: a truthy answer outside `outcomes` yields
`null`.  Case 3: a truthy in-set answer is returned as-is.  Anything else
(falsy `reasoning`, falsy `answer`) is an invalid response and yields
`null`.  (Supabase audit storage is fire-and-forget and does not affect the
returned value.) -/
def getMarketSettlementAnalysis (outcomes : List String) (parsed : Option AIParsed) :
    Option AIResult :=
  match parsed with
  | none => none
  | some p =>
    if !(p.reasoning == "") then
      match p.answer with
      | none =>
        some { answer := "NO",
               reasoning := "[AUTO-SETTLED AS NO] Original AI Assessment: " ++ p.reasoning }
      | some a =>
        if !(a == "") && !(outcomes.contains a) then none
        else if !(a == "") then some { answer := a, reasoning := p.reasoning }
        else none
    else none

/-- The external world as seen by one settlement attempt for one market:
contract reads, the settler transaction outcome, and the oracle response. -/
structure ChainEnv where
  marketSettled : Bool := false
  chainEndTime : Int := 0
  chainQuestion : Option String := none
  winningTokenIdOnChain : Option Nat := none
  yesTokenId : Option Nat := none
  noTokenId : Option Nat := none
  settlerKeyConfigured : Bool := true
  settleSucceeds : Bool := true
  aiParsed : Option AIParsed := none
  deriving DecidableEq

/-- The object `executeSettlementLogic` returns. -/
structure SettlementOutcome where
  success : Bool
  message : String := ""
  aiAnswer : Option String := none
  aiReasoning : Option String := none
  winningTokenId : Option String := none
  deriving DecidableEq

/-- The fixed outcome set `["YES", "NO"]` of `executeSettlementLogic`. -/
def settlementOutcomes : List String := ["YES", "NO"]

/-- `answer.toUpperCase()`: character-wise uppercasing (it agrees with
JavaScript `toUpperCase` on the ASCII outcome labels compared against). -/
def jsToUpper (s : String) : String := ⟨s.data.map Char.toUpper⟩

/-- The on-chain commit inside `executeSettlementLogic`: settler-key check,
`settleMarket` submission and confirmation wait (contract errors are caught
there and reported as a failed outcome).  The list records every
`settleMarket` transaction submitted to the ledger. -/
def settleStep (env : ChainEnv) (res : AIResult) (tok : Nat) :
    Except String SettlementOutcome × List Nat :=
  if !env.settlerKeyConfigured then
    (.ok { success := false, message := "Settler private key not configured." }, [])
  else if env.settleSucceeds then
    (.ok { success := true, message := "On-chain settlement transaction successful.",
           aiAnswer := some res.answer, aiReasoning := some res.reasoning,
           winningTokenId := some (toString tok) }, [tok])
  else
    (.ok { success := false, message := "Failed to call settleMarket." }, [tok])

/-- `executeSettlementLogic` of `blockchain.js`.  `Except.error` models the
uncaught throw of `getYesTokenId`/`getNoTokenId` (which propagates to the
caller's catch); the `settleMarket` try/catch is inside `settleStep`. -/
def executeSettlementLogic (env : ChainEnv) :
    Except String SettlementOutcome × List Nat :=
  match getMarketSettlementAnalysis settlementOutcomes env.aiParsed with
  | some res =>
    if !(res.answer == "") then
      if jsToUpper res.answer == "YES" then
        match env.yesTokenId with
        | some tok => settleStep env res tok
        | none => (.error ("getYesTokenId reverted"), [])
      else if jsToUpper res.answer == "NO" then
        match env.noTokenId with
        | some tok => settleStep env res tok
        | none => (.error ("getNoTokenId reverted"), [])
      else (.ok { success := false, message := "AI answer is not YES or NO." }, [])
    else (.ok { success := false, message := "Failed to get AI analysis." }, [])
  | none => (.ok { success := false, message := "Failed to get AI analysis." }, [])

/-- `fetchAndStoreMarketQuestion` of `blockchain.js`: reads the question from
the contract and stores it when non-empty; errors and empty reads store
nothing. -/
def fetchAndStoreMarketQuestion (env : ChainEnv) (cid : String) (now : Int)
    (s : DBState) : DBState :=
  match env.chainQuestion with
  | some q => if !(q == "") then (applyOp (.updateMarketQuestion cid q) now s).1 else s
  | none => s

/-- The object `processMarketAndSettleOnChain` resolves with. -/
structure ProcessResult where
  success : Bool
  alreadySettled : Bool := false
  errorMsg : Option String := none
  deriving DecidableEq

/-- `processMarketAndSettleOnChain` of `blockchain.js`: re-check the chain's
settlement flag, validate the stored question and the chain end time plus
settlement delay, run `executeSettlementLogic`, and on full success persist
`processedForSettlement`, `isSettledOnChain` and the winning token id; on an
AI or on-chain failure increment the retry count.  The last component lists
the `settleMarket` transactions submitted. -/
def processMarketAndSettleOnChain (env : ChainEnv) (cid : String)
    (now settlementDelay : Int) (s : DBState) : ProcessResult × DBState × List Nat :=
  if env.marketSettled then
    let s1 := (applyOp (.setMarketProcessedForSettlement cid) now s).1
    let s2 := (applyOp (.updateMarketSettledOnChain cid true) now s1).1
    ({ success := true, alreadySettled := true }, s2, [])
  else
    match getMarket s cid with
    | none => ({ success := false, errorMsg := some ("Market not found in database") }, s, [])
    | some market =>
      let s1 := if !(jsTruthy market.marketQuestion)
        then fetchAndStoreMarketQuestion env cid now s else s
      let question : Option String :=
        if !(jsTruthy market.marketQuestion) then
          match getMarket s1 cid with
          | some m2 => if jsTruthy m2.marketQuestion then m2.marketQuestion else none
          | none => none
        else market.marketQuestion
      match question with
      | none => ({ success := false, errorMsg := some ("Missing market question") }, s1, [])
      | some _ =>
        if env.chainEndTime = 0 then
          ({ success := false, errorMsg := some ("Invalid market end time") }, s1, [])
        else if now < env.chainEndTime then
          ({ success := false, errorMsg := some ("Market end time has not passed yet") }, s1, [])
        else if now < env.chainEndTime + settlementDelay then
          ({ success := false, errorMsg := some ("Settlement delay not met") }, s1, [])
        else
          match executeSettlementLogic env with
          | (.error msg, txs) => ({ success := false, errorMsg := some msg }, s1, txs)
          | (.ok r, txs) =>
            match r.success, r.winningTokenId with
            | true, some w =>
              let s2 := (applyOp (.setMarketProcessedForSettlement cid) now s1).1
              let s3 := (applyOp (.updateMarketSettledOnChain cid true) now s2).1
              let s4 := (applyOp (.updateMarketWinningTokenId cid w) now s3).1
              ({ success := true }, s4, txs)
            | _, _ =>
              let s2 := (applyOp (.incrementMarketRetryCount cid) now s1).1
              ({ success := false, errorMsg := some r.message }, s2, txs)

/-- `getMarketSettledFromChain`: reads the chain's settlement flag and
records it via `updateMarketSettledOnChain`. -/
def getMarketSettledFromChain (env : ChainEnv) (cid : String) (now : Int)
    (s : DBState) : Bool × DBState :=
  (env.marketSettled, (applyOp (.updateMarketSettledOnChain cid env.marketSettled) now s).1)

/-- One iteration of the `for` loop of `checkAndProcessMarkets` in
`marketProcessor.js`: double-check the chain, and either mark the market
processed (already settled) or run the settlement pipeline. -/
def checkAndProcessOne (env : ChainEnv) (cid : String) (now settlementDelay : Int)
    (s : DBState) : DBState :=
  let p := getMarketSettledFromChain env cid now s
  if p.1 then (applyOp (.setMarketProcessedForSettlement cid) now p.2).1
  else (processMarketAndSettleOnChain env cid now settlementDelay p.2).2.1

/-- `fetchAndRecordPreSettledMarketDetails` of `blockchain.js`: if the chain
reports the market settled at ingestion time, record the settlement, mark it
processed, and best-effort record the winning token. -/
def fetchAndRecordPreSettledMarketDetails (env : ChainEnv) (cid : String)
    (now : Int) (s : DBState) : Bool × DBState :=
  if env.marketSettled then
    let s1 := (applyOp (.updateMarketSettledOnChain cid true) now s).1
    let s2 := (applyOp (.setMarketProcessedForSettlement cid) now s1).1
    match env.winningTokenIdOnChain with
    | some tok => (true, (applyOp (.updateMarketWinningTokenId cid (toString tok)) now s2).1)
    | none => (true, s2)
  else (false, s)

/-- `fetchAndStoreMarketEndTime` of `blockchain.js`: stores the end time when
the chain returns a positive value. -/
def fetchAndStoreMarketEndTime (env : ChainEnv) (cid : String) (now : Int)
    (s : DBState) : DBState :=
  if env.chainEndTime > 0 then
    (applyOp (.updateMarketEndTime cid env.chainEndTime) now s).1
  else s

/-- `resetFailedMarket` of `marketProcessor.js`: the CLI reset, allowed only
for unprocessed markets with recorded failed attempts. -/
def resetFailedMarket (cid : String) (now : Int) (s : DBState) : Bool × DBState :=
  match getMarket s cid with
  | none => (false, s)
  | some market =>
    if !market.processedForSettlement && decide (market.retries > 0) then
      let s1 := (applyOp (.resetMarketProcessedStatus cid) now s).1
      (true, (applyOp (.resetMarketRetryCount cid) now s1).1)
    else (false, s)

theorem find?_map_cond (cid : String) (g : MarketRow → MarketRow)
    (hg : ∀ r, (g r).conditionId = r.conditionId) (cond : MarketRow → Bool) :
    ∀ ms : List MarketRow,
      (ms.map (fun r => if r.conditionId == cid && cond r then g r else r)).find?
          (fun r => r.conditionId == cid)
        = (ms.find? (fun r => r.conditionId == cid)).map
            (fun r => if cond r then g r else r) := by
  intro ms
  induction ms with
  | nil => rfl
  | cons a ms ih =>
    rw [List.map_cons]
    have hkeep : ((if a.conditionId == cid && cond a then g a else a).conditionId == cid)
        = (a.conditionId == cid) := by
      by_cases hc : (a.conditionId == cid && cond a) = true
      · rw [if_pos hc, show (g a).conditionId = a.conditionId from hg a]
      · rw [if_neg hc]
    rw [List.find?_cons, List.find?_cons, hkeep]
    by_cases h : (a.conditionId == cid) = true
    · rw [h]
      simp [h]
    · rw [Bool.not_eq_true] at h
      rw [h]
      exact ih

theorem getMarket_sqlUpdate_target (cid : String) (extraCond : MarketRow → Bool)
    (f : MarketRow → MarketRow) (hf : ∀ r, (f r).conditionId = r.conditionId)
    (now : Int) (ms : List MarketRow) :
    ((sqlUpdate cid extraCond f now ms).1).find? (fun r => r.conditionId == cid)
      = (ms.find? (fun r => r.conditionId == cid)).map
          (fun r => if extraCond r then { f r with updatedAt := now } else r) :=
  find?_map_cond cid (fun r => { f r with updatedAt := now }) (fun r => hf r) extraCond ms

theorem getMarket_setProcessed (cid : String) (now : Int) (s : DBState) :
    getMarket ((applyOp (.setMarketProcessedForSettlement cid) now s).1) cid
      = (getMarket s cid).map
          (fun r => { r with processedForSettlement := true, updatedAt := now }) := by
  have h := getMarket_sqlUpdate_target cid (fun _ => true)
    (fun r => { r with processedForSettlement := true }) (fun _ => rfl) now s.markets
  refine Eq.trans (by rfl) (h.trans ?_)
  congr 1

theorem getMarket_updSettled (cid : String) (b : Bool) (now : Int) (s : DBState) :
    getMarket ((applyOp (.updateMarketSettledOnChain cid b) now s).1) cid
      = (getMarket s cid).map
          (fun r => { r with isSettledOnChain := b, lastOnChainCheck := some now, updatedAt := now }) := by
  have h := getMarket_sqlUpdate_target cid (fun _ => true)
    (fun r => { r with isSettledOnChain := b, lastOnChainCheck := some now })
    (fun _ => rfl) now s.markets
  refine Eq.trans (by rfl) (h.trans ?_)
  congr 1

theorem getMarket_updWinning (cid w : String) (now : Int) (s : DBState) :
    getMarket ((applyOp (.updateMarketWinningTokenId cid w) now s).1) cid
      = (getMarket s cid).map
          (fun r => { r with winningTokenId := some w, updatedAt := now }) := by
  have h := getMarket_sqlUpdate_target cid (fun _ => true)
    (fun r => { r with winningTokenId := some w }) (fun _ => rfl) now s.markets
  refine Eq.trans (by rfl) (h.trans ?_)
  congr 1

theorem getMarket_incrRetry (cid : String) (now : Int) (s : DBState) :
    getMarket ((applyOp (.incrementMarketRetryCount cid) now s).1) cid
      = (getMarket s cid).map
          (fun r => { r with retries := r.retries + 1, updatedAt := now }) := by
  have h := getMarket_sqlUpdate_target cid (fun _ => true)
    (fun r => { r with retries := r.retries + 1 }) (fun _ => rfl) now s.markets
  refine Eq.trans (by rfl) (h.trans ?_)
  congr 1

theorem executeSettlement_success (env : ChainEnv) (r : AIResult) (ytok ntok : Nat)
    (hai : getMarketSettlementAnalysis settlementOutcomes env.aiParsed = some r)
    (hans : r.answer = "YES" ∨ r.answer = "NO")
    (hy : env.yesTokenId = some ytok) (hn : env.noTokenId = some ntok)
    (hkey : env.settlerKeyConfigured = true) (hok : env.settleSucceeds = true) :
    executeSettlementLogic env
      = (.ok { success := true, message := "On-chain settlement transaction successful.",
               aiAnswer := some r.answer, aiReasoning := some r.reasoning,
               winningTokenId := some (toString (if r.answer = "YES" then ytok else ntok)) },
         [if r.answer = "YES" then ytok else ntok]) := by
  have u1 : jsToUpper ("YES") = "YES" := by decide
  have u2 : jsToUpper ("NO") = "NO" := by decide
  unfold executeSettlementLogic settleStep
  rw [hai]
  rcases hans with h | h
  · have e1 : (!(r.answer == "")) = true := by rw [h]; rfl
    simp [e1, hy, hkey, hok, h, u1]
  · have e1 : (!(r.answer == "")) = true := by rw [h]; rfl
    simp [e1, hn, hkey, hok, h, u1, u2]

theorem pipeline_success_persists (env : ChainEnv) (cid : String) (now delay : Int)
    (s : DBState) (m : MarketRow) (r : AIResult) (ytok ntok : Nat)
    (hns : env.marketSettled = false)
    (hm : getMarket s cid = some m)
    (hq : jsTruthy m.marketQuestion = true)
    (het0 : env.chainEndTime ≠ 0)
    (het1 : env.chainEndTime ≤ now)
    (het2 : env.chainEndTime + delay ≤ now)
    (hai : getMarketSettlementAnalysis settlementOutcomes env.aiParsed = some r)
    (hans : r.answer = "YES" ∨ r.answer = "NO")
    (hy : env.yesTokenId = some ytok)
    (hn : env.noTokenId = some ntok)
    (hkey : env.settlerKeyConfigured = true)
    (hok : env.settleSucceeds = true) :
    (processMarketAndSettleOnChain env cid now delay s).1.success = true ∧
    ∃ m', getMarket (processMarketAndSettleOnChain env cid now delay s).2.1 cid = some m' ∧
      m'.processedForSettlement = true ∧ m'.isSettledOnChain = true ∧
      m'.winningTokenId = some (toString (if r.answer = "YES" then ytok else ntok)) ∧
      m'.retries = m.retries := by
  have hexec := executeSettlement_success env r ytok ntok hai hans hy hn hkey hok
  obtain ⟨q, hq'⟩ : ∃ q, m.marketQuestion = some q := by
    cases hmq : m.marketQuestion
    · rw [hmq] at hq
      exact absurd hq (by simp [jsTruthy])
    · exact ⟨_, rfl⟩
  have hnl1 : ¬ (now < env.chainEndTime) := not_lt.mpr het1
  have hnl2 : ¬ (now < env.chainEndTime + delay) := not_lt.mpr het2
  unfold processMarketAndSettleOnChain
  rw [hexec]
  simp only [hns, Bool.false_eq_true, if_false, hm, hq, Bool.not_true, hq', het0, hnl1, hnl2,
    if_true, if_false]
  have hqq : jsTruthy (some q) = true := by rw [← hq']; exact hq
  simp only [hqq, Bool.not_true, Bool.false_eq_true, if_false]
  refine ⟨by trivial, ?_⟩
  rw [getMarket_updWinning, getMarket_updSettled, getMarket_setProcessed, hm]
  refine ⟨_, rfl, ?_, ?_, ?_, ?_⟩ <;> rfl

/-- C2: when the ledger re-check reports not settled, the pipeline reaches the
oracle (the market is stored with a question and the chain end time plus
settlement delay has passed), the oracle analysis yields an answer in the
outcome set, token resolution succeeds and the commit transaction confirms,
then `processMarketAndSettleOnChain` reports success and persists
`processedForSettlement = true`, `isSettledOnChain = true` and the resolved
winning token id as a string, leaving the retry count unchanged. -/
theorem C2_success_persists (env : ChainEnv) (cid : String) (now delay : Int)
    (s : DBState) (m : MarketRow) (r : AIResult) (ytok ntok : Nat)
    (hns : env.marketSettled = false)
    (hm : getMarket s cid = some m)
    (hq : jsTruthy m.marketQuestion = true)
    (het0 : env.chainEndTime ≠ 0)
    (het1 : env.chainEndTime ≤ now)
    (het2 : env.chainEndTime + delay ≤ now)
    (hai : getMarketSettlementAnalysis settlementOutcomes env.aiParsed = some r)
    (hans : r.answer = "YES" ∨ r.answer = "NO")
    (hy : env.yesTokenId = some ytok)
    (hn : env.noTokenId = some ntok)
    (hkey : env.settlerKeyConfigured = true)
    (hok : env.settleSucceeds = true) :
    (processMarketAndSettleOnChain env cid now delay s).1.success = true ∧
    ∃ m', getMarket (processMarketAndSettleOnChain env cid now delay s).2.1 cid = some m' ∧
      m'.processedForSettlement = true ∧ m'.isSettledOnChain = true ∧
      m'.winningTokenId = some (toString (if r.answer = "YES" then ytok else ntok)) ∧
      m'.retries = m.retries :=
  pipeline_success_persists env cid now delay s m r ytok ntok hns hm hq het0 het1 het2
    hai hans hy hn hkey hok

/-- The stored record of the end-to-end demo market. -/
def marketAA : MarketRow :=
  { conditionId := cidDemo, marketCreator := creatorDemo,
    marketQuestion := some ("Did event X happen?"), marketEndTime := some 100,
    fetchedEndTime := true, createdAt := 0, updatedAt := 0 }

/-- A store holding only the demo market. -/
def dbAA : DBState := { markets := [marketAA], journal := [], nextJournalId := 1 }

/-- Demo environment: not settled on-chain, end time 100, oracle answers YES,
token resolution gives 42/43, commit succeeds. -/
def envYes : ChainEnv :=
  { marketSettled := false, chainEndTime := 100,
    yesTokenId := some 42, noTokenId := some 43,
    settlerKeyConfigured := true, settleSucceeds := true,
    aiParsed := some { answer := some ("YES"), reasoning := "confirmed by sources" } }

theorem C2_success_persists_witness :
    (processMarketAndSettleOnChain envYes cidDemo 200 60 dbAA).1.success = true ∧
    ∃ m', getMarket (processMarketAndSettleOnChain envYes cidDemo 200 60 dbAA).2.1 cidDemo
        = some m' ∧
      m'.processedForSettlement = true ∧ m'.isSettledOnChain = true ∧
      m'.winningTokenId
        = some (toString (if (("YES" : String) = "YES") then (42 : Nat) else 43)) ∧
      m'.retries = marketAA.retries :=
  C2_success_persists envYes cidDemo 200 60 dbAA marketAA
    { answer := "YES", reasoning := "confirmed by sources" } 42 43
    rfl (by decide) (by decide) (by decide) (by decide) (by decide) (by decide)
    (Or.inl rfl) rfl rfl rfl rfl

theorem analysis_none_of_rejected (p : AIParsed) (a : String)
    (hpa : p.answer = some a) (hnotin : a ∉ settlementOutcomes) :
    getMarketSettlementAnalysis settlementOutcomes (some p) = none := by
  unfold getMarketSettlementAnalysis
  by_cases hr : (p.reasoning == "") = true
  · simp [hr]
  · by_cases ha : (a == "") = true
    · simp [hr, ha, hpa]
    · have hcon : settlementOutcomes.contains a = false := by
        simpa [settlementOutcomes] using hnotin
      simp [hr, ha, hcon, hpa]
      exact hnotin

/-- C7: when the pipeline reaches the oracle and the oracle's answer is
non-null but outside the outcome set, no `settleMarket` transaction is
submitted, the retry count increments by exactly 1, and
`processedForSettlement` stays false. -/
theorem C7_rejected_answer (env : ChainEnv) (cid : String) (now delay : Int)
    (s : DBState) (m : MarketRow) (p : AIParsed) (a : String)
    (hns : env.marketSettled = false)
    (hm : getMarket s cid = some m)
    (hq : jsTruthy m.marketQuestion = true)
    (hp0 : m.processedForSettlement = false)
    (het0 : env.chainEndTime ≠ 0)
    (het1 : env.chainEndTime ≤ now)
    (het2 : env.chainEndTime + delay ≤ now)
    (hai : env.aiParsed = some p)
    (hpa : p.answer = some a)
    (hnotin : a ∉ settlementOutcomes) :
    (processMarketAndSettleOnChain env cid now delay s).2.2 = [] ∧
    ∃ m', getMarket (processMarketAndSettleOnChain env cid now delay s).2.1 cid = some m' ∧
      m'.retries = m.retries + 1 ∧ m'.processedForSettlement = false := by
  have hana : getMarketSettlementAnalysis settlementOutcomes env.aiParsed = none := by
    rw [hai]
    exact analysis_none_of_rejected p a hpa hnotin
  have hexec : executeSettlementLogic env
      = (.ok { success := false, message := "Failed to get AI analysis." }, []) := by
    unfold executeSettlementLogic
    rw [hana]
  obtain ⟨q, hq'⟩ : ∃ q, m.marketQuestion = some q := by
    cases hmq : m.marketQuestion
    · rw [hmq] at hq
      exact absurd hq (by simp [jsTruthy])
    · exact ⟨_, rfl⟩
  have hnl1 : ¬ (now < env.chainEndTime) := not_lt.mpr het1
  have hnl2 : ¬ (now < env.chainEndTime + delay) := not_lt.mpr het2
  unfold processMarketAndSettleOnChain
  rw [hexec]
  simp only [hns, Bool.false_eq_true, if_false, hm, hq, Bool.not_true, hq', het0, hnl1, hnl2,
    if_true, if_false]
  have hqq : jsTruthy (some q) = true := by rw [← hq']; exact hq
  simp only [hqq, Bool.not_true, Bool.false_eq_true, if_false]
  refine ⟨by trivial, ?_⟩
  rw [getMarket_incrRetry, hm]
  refine ⟨_, rfl, ?_, ?_⟩
  · rfl
  · exact hp0

/-- Demo environment: oracle answers an out-of-set label. -/
def envMaybe : ChainEnv :=
  { marketSettled := false, chainEndTime := 100,
    yesTokenId := some 42, noTokenId := some 43,
    settlerKeyConfigured := true, settleSucceeds := true,
    aiParsed := some { answer := some ("MAYBE"), reasoning := "sources disagree" } }

theorem C7_rejected_answer_witness :
    (processMarketAndSettleOnChain envMaybe cidDemo 200 60 dbAA).2.2 = [] ∧
    ∃ m', getMarket (processMarketAndSettleOnChain envMaybe cidDemo 200 60 dbAA).2.1 cidDemo
        = some m' ∧
      m'.retries = marketAA.retries + 1 ∧ m'.processedForSettlement = false :=
  C7_rejected_answer envMaybe cidDemo 200 60 dbAA marketAA
    { answer := some ("MAYBE"), reasoning := "sources disagree" } "MAYBE"
    rfl (by decide) (by decide) rfl (by decide) (by decide) (by decide) rfl rfl (by decide)

/-- Demo environment: the oracle signals ambiguity with an empty explanation
string (`{answer: null, reasoning: ""}`); everything else would allow a
successful settlement. -/
def envAmbigEmpty : ChainEnv :=
  { marketSettled := false, chainEndTime := 100,
    yesTokenId := some 42, noTokenId := some 43,
    settlerKeyConfigured := true, settleSucceeds := true,
    aiParsed := some { answer := none, reasoning := "" } }

/-- C6 as stated is false at the oracle response `{answer: null, reasoning:
""}`: because the empty string is falsy, `getMarketSettlementAnalysis` falls
through to the invalid-response branch and returns null instead of
substituting "NO", and the pipeline records a failed attempt (retry count 1,
nothing persisted) instead of proceeding to settlement. -/
theorem C6_counterexample :
    getMarketSettlementAnalysis settlementOutcomes
        (some { answer := none, reasoning := "" }) = none ∧
    (processMarketAndSettleOnChain envAmbigEmpty cidDemo 200 60 dbAA).1.success = false ∧
    (processMarketAndSettleOnChain envAmbigEmpty cidDemo 200 60 dbAA).2.2 = [] ∧
    Option.map (fun m' => (m'.processedForSettlement, m'.winningTokenId, m'.retries))
        (getMarket (processMarketAndSettleOnChain envAmbigEmpty cidDemo 200 60 dbAA).2.1
          cidDemo)
      = some (false, none, 1) := by
  refine ⟨rfl, ?_, ?_, ?_⟩ <;> decide

/-- C6 (amended): for every oracle response `{answer: null, reasoning: r}`
with a NON-EMPTY explanation `r`, the pipeline substitutes "NO" as the
answer, stores a reasoning string annotating the auto-resolution that
contains the original explanation, and proceeds with settlement, reaching
the settled record when token resolution and the commit succeed. -/
theorem C6_ambiguous_auto_no (env : ChainEnv) (cid : String) (now delay : Int)
    (s : DBState) (m : MarketRow) (rr : String) (ytok ntok : Nat)
    (hrr : rr ≠ "")
    (hai : env.aiParsed = some { answer := none, reasoning := rr })
    (hns : env.marketSettled = false)
    (hm : getMarket s cid = some m)
    (hq : jsTruthy m.marketQuestion = true)
    (het0 : env.chainEndTime ≠ 0)
    (het1 : env.chainEndTime ≤ now)
    (het2 : env.chainEndTime + delay ≤ now)
    (hy : env.yesTokenId = some ytok)
    (hn : env.noTokenId = some ntok)
    (hkey : env.settlerKeyConfigured = true)
    (hok : env.settleSucceeds = true) :
    getMarketSettlementAnalysis settlementOutcomes env.aiParsed
      = some { answer := "NO",
               reasoning := "[AUTO-SETTLED AS NO] Original AI Assessment: " ++ rr } ∧
    (processMarketAndSettleOnChain env cid now delay s).1.success = true ∧
    ∃ m', getMarket (processMarketAndSettleOnChain env cid now delay s).2.1 cid = some m' ∧
      m'.processedForSettlement = true ∧ m'.isSettledOnChain = true ∧
      m'.winningTokenId = some (toString ntok) := by
  have hana : getMarketSettlementAnalysis settlementOutcomes env.aiParsed
      = some { answer := "NO",
               reasoning := "[AUTO-SETTLED AS NO] Original AI Assessment: " ++ rr } := by
    rw [hai]
    unfold getMarketSettlementAnalysis
    have e : (rr == "") = false := beq_eq_false_iff_ne.mpr hrr
    simp [e]
  refine ⟨hana, ?_⟩
  have h2 := pipeline_success_persists env cid now delay s m
    { answer := "NO", reasoning := "[AUTO-SETTLED AS NO] Original AI Assessment: " ++ rr }
    ytok ntok hns hm hq het0 het1 het2 hana (Or.inr rfl) hy hn hkey hok
  obtain ⟨hs, m', hfind, h1, hset, h3, _⟩ := h2
  refine ⟨hs, m', hfind, h1, hset, ?_⟩
  rw [h3]
  simp

/-- Demo ambiguous explanation. -/
def reasonDemo : String := "ambiguous"

/-- Demo environment: ambiguous oracle signal with a non-empty explanation. -/
def envAmbig : ChainEnv :=
  { marketSettled := false, chainEndTime := 100,
    yesTokenId := some 42, noTokenId := some 43,
    settlerKeyConfigured := true, settleSucceeds := true,
    aiParsed := some { answer := none, reasoning := reasonDemo } }

theorem C6_ambiguous_auto_no_witness :
    getMarketSettlementAnalysis settlementOutcomes envAmbig.aiParsed
      = some { answer := "NO",
               reasoning := "[AUTO-SETTLED AS NO] Original AI Assessment: " ++ reasonDemo } ∧
    (processMarketAndSettleOnChain envAmbig cidDemo 200 60 dbAA).1.success = true ∧
    ∃ m', getMarket (processMarketAndSettleOnChain envAmbig cidDemo 200 60 dbAA).2.1 cidDemo
        = some m' ∧
      m'.processedForSettlement = true ∧ m'.isSettledOnChain = true ∧
      m'.winningTokenId = some (toString (43 : Nat)) :=
  C6_ambiguous_auto_no envAmbig cidDemo 200 60 dbAA marketAA reasonDemo 42 43
    (by decide) rfl rfl (by decide) (by decide) (by decide) (by decide) (by decide)
    rfl rfl rfl rfl

theorem JStatus.isPending_iff (st : JStatus) : st.isPending = true ↔ st = .pending := by
  cases st <;> simp [JStatus.isPending]

/-- C10: the completion step at the end of every mutating operation flips to
`completed` EVERY journal row that matches the operation tag and entity id
and is still `pending` — the row inserted by this invocation and any
leftover pending row from an earlier interrupted invocation alike — so after
a successful invocation no matching pending row remains, and hence recovery
(which replays only pending rows) never replays them. -/
theorem C10_journal_completion (c : OpCall) (now : Int) (s : DBState) :
    ((applyOp c now s).1).journal
      = s.journal.map (fun r => if journalMatches c.tag c.cid r
          then { r with status := JStatus.completed } else r)
        ++ [{ id := s.nextJournalId, operation := c.tag, conditionId := c.cid,
              data := c.payload, status := JStatus.completed }] ∧
    (∀ r ∈ ((applyOp c now s).1).journal,
        r.operation = c.tag → r.conditionId = c.cid → r.status ≠ JStatus.pending) ∧
    ((applyOp c now s).1).journal.filter (fun r =>
        r.status.isPending && r.operation == c.tag && r.conditionId == c.cid) = [] := by
  have hnew : journalMatches c.tag c.cid
      { id := s.nextJournalId, operation := c.tag, conditionId := c.cid,
        data := c.payload, status := JStatus.pending } = true := by
    unfold journalMatches
    simp [JStatus.isPending]
  have h1 : ((applyOp c now s).1).journal
      = s.journal.map (fun r => if journalMatches c.tag c.cid r
          then { r with status := JStatus.completed } else r)
        ++ [{ id := s.nextJournalId, operation := c.tag, conditionId := c.cid,
              data := c.payload, status := JStatus.completed }] := by
    have heq : ((applyOp c now s).1).journal
        = (s.journal ++
            [({ id := s.nextJournalId, operation := c.tag,
                conditionId := c.cid, data := c.payload,
                status := JStatus.pending } : JournalRow)]).map
          (fun r => if journalMatches c.tag c.cid r
            then { r with status := JStatus.completed } else r) := rfl
    rw [heq, List.map_append]
    simp [hnew]
  have h2 : ∀ r ∈ ((applyOp c now s).1).journal,
      r.operation = c.tag → r.conditionId = c.cid → r.status ≠ JStatus.pending := by
    intro r hr hop hcid
    rw [h1] at hr
    rcases List.mem_append.mp hr with h | h
    · rcases List.mem_map.mp h with ⟨r0, _, rfl⟩
      by_cases hmch : journalMatches c.tag c.cid r0 = true
      · rw [if_pos hmch]
        intro hcon
        simp at hcon
      · rw [if_neg hmch] at hop hcid ⊢
        intro hpend
        apply hmch
        unfold journalMatches
        simp [hop, hcid, hpend, JStatus.isPending]
    · rw [List.mem_singleton] at h
      rw [h]
      intro hcon
      simp at hcon
  refine ⟨h1, h2, ?_⟩
  rw [List.filter_eq_nil_iff]
  intro r hr hcon
  simp only [Bool.and_eq_true, beq_iff_eq] at hcon
  obtain ⟨⟨hpend, hop⟩, hcid⟩ := hcon
  exact h2 r hr hop hcid ((JStatus.isPending_iff r.status).mp hpend)

/-- `op.data ? JSON.parse(op.data) : {}` during recovery. -/
def jdataOrEmpty (d : Option JData) : JData := d.getD {}

/-- One replay of `recoverPendingOperations`'s switch, applied directly to the
`markets` table (bypassing the wrapped-transaction path).  Unknown operation
tags only log a warning and change nothing. -/
def replayMarkets (now : Int) (row : JournalRow) (ms : List MarketRow) : List MarketRow :=
  let data := jdataOrEmpty row.data
  if row.operation == "addOrUpdateMarket" then
    match data.marketCreator with
    | some c =>
      if !(c == "") then
        if ms.any (fun r => r.conditionId == row.conditionId) then
          ms.map (fun r => if r.conditionId == row.conditionId && !(r.marketCreator == c)
                           then { r with marketCreator := c, updatedAt := now } else r)
        else ms ++ [{ conditionId := row.conditionId, marketCreator := c,
                      createdAt := now, updatedAt := now }]
      else ms
    | none => ms
  else if row.operation == "updateMarketEndTime" then
    match data.marketEndTime with
    | some t => ms.map (fun r => if r.conditionId == row.conditionId
        then { r with marketEndTime := some t, fetchedEndTime := true, updatedAt := now }
        else r)
    | none => ms
  else if row.operation == "setMarketProcessedForSettlement" then
    ms.map (fun r => if r.conditionId == row.conditionId
      then { r with processedForSettlement := true, updatedAt := now } else r)
  else if row.operation == "updateMarketSettledOnChain" then
    match data.isSettled with
    | some b => ms.map (fun r => if r.conditionId == row.conditionId
        then { r with isSettledOnChain := b, updatedAt := now } else r)
    | none => ms
  else if row.operation == "updateMarketQuestion" then
    match data.marketQuestion with
    | some q =>
      if !(q == "") then
        ms.map (fun r => if r.conditionId == row.conditionId
          then { r with marketQuestion := some q, updatedAt := now } else r)
      else ms
    | none => ms
  else if row.operation == "updateMarketWinningTokenId" then
    match data.winningTokenId with
    | some w => ms.map (fun r => if r.conditionId == row.conditionId
        then { r with winningTokenId := some w, updatedAt := now } else r)
    | none => ms
  else ms

/-- `UPDATE operations_journal SET status = ? WHERE id = ?`. -/
def setJournalStatus (jid : Nat) (st : JStatus) (s : DBState) : DBState :=
  { s with journal := s.journal.map (fun r => if r.id == jid then { r with status := st } else r) }

/-- `recoverPendingOperations` of `database.js`: scan the rows with status
`'pending'`, replay each in order and mark it `completed`; a row whose replay
raises (injected through `replayFails`) is marked `failed` instead and is not
retried. -/
def recoverPendingOperations (replayFails : Nat → Bool) (now : Int) (s : DBState) : DBState :=
  (s.journal.filter (fun r => r.status.isPending)).foldl (fun acc op =>
      if replayFails op.id then setJournalStatus op.id .failed acc
      else setJournalStatus op.id .completed
        { acc with markets := replayMarkets now op acc.markets })
    s

/-- The operation tags handled by the recovery switch. -/
def replayableTags : List String :=
  ["addOrUpdateMarket", "updateMarketEndTime", "setMarketProcessedForSettlement",
   "updateMarketSettledOnChain", "updateMarketQuestion", "updateMarketWinningTokenId"]

theorem recover_step_markets (replayFails : Nat → Bool) (now : Int) :
    ∀ (ops : List JournalRow) (acc : DBState),
      (ops.foldl (fun acc op =>
          if replayFails op.id then setJournalStatus op.id .failed acc
          else setJournalStatus op.id .completed
            { acc with markets := replayMarkets now op acc.markets }) acc).markets
        = (ops.filter (fun op => !(replayFails op.id))).foldl
            (fun ms op => replayMarkets now op ms) acc.markets := by
  intro ops
  induction ops with
  | nil => intro acc; rfl
  | cons op ops ih =>
    intro acc
    rw [List.foldl_cons, List.filter_cons]
    by_cases h : replayFails op.id = true
    · have hb : (!replayFails op.id) = false := by simp [h]
      rw [if_pos h, hb]
      simp only [Bool.false_eq_true, if_false]
      exact ih _
    · have hb : (!replayFails op.id) = true := by simp [h]
      rw [if_neg h, hb]
      simp only [if_true]
      rw [List.foldl_cons]
      exact ih _

theorem recover_step_journal (replayFails : Nat → Bool) (now : Int) :
    ∀ (ops : List JournalRow) (acc : DBState),
      (ops.foldl (fun acc op =>
          if replayFails op.id then setJournalStatus op.id .failed acc
          else setJournalStatus op.id .completed
            { acc with markets := replayMarkets now op acc.markets }) acc).journal
        = ops.foldl (fun j op => j.map (fun r => if r.id == op.id
            then { r with status := if replayFails op.id then JStatus.failed
                                    else JStatus.completed }
            else r)) acc.journal := by
  intro ops
  induction ops with
  | nil => intro acc; rfl
  | cons op ops ih =>
    intro acc
    rw [List.foldl_cons, List.foldl_cons, ih]
    congr 1
    by_cases h : replayFails op.id = true
    · rw [if_pos h]
      simp only [h, if_true]
      rfl
    · rw [if_neg h]
      simp only [h, Bool.false_eq_true, if_false]
      rfl

theorem foldl_setStatus (stat : Nat → JStatus) :
    ∀ (ops : List JournalRow) (j : List JournalRow),
      ((ops.map (fun op => op.id)).Nodup) →
      ops.foldl (fun j op => j.map (fun r => if r.id == op.id
          then { r with status := stat op.id } else r)) j
        = j.map (fun r => match ops.find? (fun op => op.id == r.id) with
            | some op => { r with status := stat op.id }
            | none => r) := by
  intro ops
  induction ops with
  | nil =>
    intro j _
    simp [List.find?]
  | cons op ops ih =>
    intro j hN
    rw [List.map_cons, List.nodup_cons] at hN
    rw [List.foldl_cons, ih _ hN.2, List.map_map]
    apply List.map_congr_left
    intro r _
    simp only [Function.comp]
    by_cases hr : (r.id == op.id) = true
    · have hre : r.id = op.id := by simpa using hr
      rw [if_pos hr]
      have hfind : ops.find? (fun o => o.id == r.id) = none := by
        rw [List.find?_eq_none]
        intro o ho hbeq
        apply hN.1
        have hoe : o.id = op.id := by
          have h1 : o.id = r.id := by simpa using hbeq
          rw [h1, hre]
        rw [← hoe]
        exact List.mem_map.mpr ⟨o, ho, rfl⟩
      have hfind2 : (op :: ops).find? (fun o => o.id == r.id) = some op := by
        rw [List.find?_cons, show (op.id == r.id) = true by simp [hre]]
      dsimp only
      rw [hfind, hfind2]
    · have hre : ¬ (r.id = op.id) := by simpa using hr
      rw [if_neg hr]
      have hfind2 : (op :: ops).find? (fun o => o.id == r.id) = ops.find? (fun o => o.id == r.id) := by
        rw [List.find?_cons, show (op.id == r.id) = false by simp [Ne.symm hre]]
      rw [hfind2]

theorem replayMarkets_unknown_tag (now : Int) (row : JournalRow)
    (h : row.operation ∉ replayableTags) : ∀ ms, replayMarkets now row ms = ms := by
  intro ms
  unfold replayMarkets
  simp only [replayableTags, List.mem_cons, List.not_mem_nil, or_false, not_or] at h
  obtain ⟨h1, h2, h3, h4, h5, h6⟩ := h
  simp [h1, h2, h3, h4, h5, h6]

/-- C4 (amended): startup recovery processes exactly the journal rows with
status `pending`, in order: a non-faulting pending row has its replay applied
directly to the `markets` table and is marked `completed`; a pending row
whose replay raises is marked `failed` (and, being no longer pending, is not
retried); non-pending rows are untouched.  HOWEVER, the replay switch only
re-applies the mutation for the six tags in `replayableTags`: a pending row
with any other tag — including `incrementMarketRetryCount`,
`resetMarketRetryCount` and `resetMarketProcessedStatus`, which the mutating
operations do write — is marked `completed` WITHOUT its mutation being
re-applied. -/
theorem C4_recovery_replay (replayFails : Nat → Bool) (now : Int) (s : DBState)
    (hN : (s.journal.map (fun r => r.id)).Nodup) :
    (recoverPendingOperations replayFails now s).journal
      = s.journal.map (fun r => if r.status.isPending
          then { r with status := if replayFails r.id then JStatus.failed
                                  else JStatus.completed }
          else r) ∧
    (recoverPendingOperations replayFails now s).markets
      = ((s.journal.filter (fun r => r.status.isPending)).filter
            (fun op => !(replayFails op.id))).foldl
          (fun ms op => replayMarkets now op ms) s.markets ∧
    (∀ row : JournalRow, row.operation ∉ replayableTags →
      ∀ ms : List MarketRow, replayMarkets now row ms = ms) := by
  have hNp : ((s.journal.filter (fun r => r.status.isPending)).map (fun r => r.id)).Nodup := by
    have hsub : List.Sublist
        ((s.journal.filter (fun r => r.status.isPending)).map (fun r => r.id))
        (s.journal.map (fun r => r.id)) := (List.filter_sublist _).map _
    exact List.Nodup.sublist hsub hN
  refine ⟨?_, ?_, fun row h ms => replayMarkets_unknown_tag now row h ms⟩
  · have h1 := recover_step_journal replayFails now
      (s.journal.filter (fun r => r.status.isPending)) s
    have h2 := foldl_setStatus
      (fun i => if replayFails i then JStatus.failed else JStatus.completed)
      (s.journal.filter (fun r => r.status.isPending)) s.journal hNp
    unfold recoverPendingOperations
    rw [h1, h2]
    apply List.map_congr_left
    intro r hr
    by_cases hp : r.status.isPending = true
    · rw [if_pos hp]
      have hrp : r ∈ s.journal.filter (fun r => r.status.isPending) :=
        List.mem_filter.mpr ⟨hr, hp⟩
      cases hfind : (s.journal.filter (fun r => r.status.isPending)).find?
          (fun op => op.id == r.id) with
      | none =>
        rw [List.find?_eq_none] at hfind
        exact absurd (by simp : (r.id == r.id) = true) (hfind r hrp)
      | some op =>
        have hmem : op ∈ s.journal.filter (fun r => r.status.isPending) :=
          List.mem_of_find?_eq_some hfind
        have hbeq : op.id = r.id := by simpa using List.find?_some hfind
        have hop : op = r :=
          List.inj_on_of_nodup_map hN (List.mem_of_mem_filter hmem) hr hbeq
        rw [hop]
    · rw [if_neg hp]
      cases hfind : (s.journal.filter (fun r => r.status.isPending)).find?
          (fun op => op.id == r.id) with
      | none => rfl
      | some op =>
        have hmem := List.mem_of_find?_eq_some hfind
        have hbeq : op.id = r.id := by simpa using List.find?_some hfind
        have hop : op = r :=
          List.inj_on_of_nodup_map hN (List.mem_of_mem_filter hmem) hr hbeq
        rw [hop] at hmem
        exact absurd (List.mem_filter.mp hmem).2 hp
  · exact recover_step_markets replayFails now
      (s.journal.filter (fun r => r.status.isPending)) s

/-- A store with one market (0 retries) and one leftover pending
`incrementMarketRetryCount` journal row. -/
def dbPendingIncr : DBState :=
  { markets := [marketAA],
    journal := [{ id := 1, operation := "incrementMarketRetryCount",
                  conditionId := cidDemo, data := none, status := JStatus.pending }],
    nextJournalId := 2 }

/-- C4 as stated is false: recovery does NOT re-apply the mutation described
by a pending `incrementMarketRetryCount` row (the switch has no case for
that tag; the default branch only logs a warning), yet it still marks the
row `completed`.  The market's retry count stays 0 instead of becoming 1. -/
theorem C4_counterexample :
    Option.map (fun m => m.retries)
        (getMarket (recoverPendingOperations (fun _ => false) 50 dbPendingIncr) cidDemo)
      = some 0 ∧
    ¬ (Option.map (fun m => m.retries)
        (getMarket (recoverPendingOperations (fun _ => false) 50 dbPendingIncr) cidDemo)
      = some (marketAA.retries + 1)) ∧
    (recoverPendingOperations (fun _ => false) 50 dbPendingIncr).journal.map
        (fun r => r.status) = [JStatus.completed] := by
  refine ⟨?_, ?_, ?_⟩ <;> decide

/-- Demo fault function: no replay raises. -/
def noFailsDemo : Nat → Bool := fun _ => false

theorem C4_recovery_replay_witness :
    (recoverPendingOperations noFailsDemo 50 dbPendingIncr).journal
      = dbPendingIncr.journal.map (fun r => if r.status.isPending
          then { r with status := if noFailsDemo r.id then JStatus.failed
                                  else JStatus.completed }
          else r) :=
  (C4_recovery_replay noFailsDemo 50 dbPendingIncr (by decide)).1

/-- State of the settlement scheduler: the `isProcessing` guard, the work
lists of all currently live runs (the guard is meant to keep this to at most
one), and the total number of settlement-pipeline invocations performed. -/
structure SchedState where
  isProcessing : Bool
  activeRuns : List (List String)
  invocations : Nat
  deriving DecidableEq

/-- Events of the scheduler's event loop.  JavaScript is single-threaded, so
the guard check-and-set at the top of `checkAndProcessMarkets` is one atomic
event (`invokeRun`, carrying the eligible set the run would process), and a
run's awaits let other events interleave only between whole steps
(`processOne` per market, `finishRun` for the finally block). -/
inductive SchedEvent
  | invokeRun (eligible : List String)
  | processOne
  | finishRun
  deriving DecidableEq

/-- One atomic event of `checkAndProcessMarkets`: a run invoked while
`isProcessing` is set returns immediately (skipped, not queued); otherwise it
sets the guard and becomes the live run; the live run processes its markets
one at a time and clears the guard in its finally block. -/
def schedStep (s : SchedState) : SchedEvent → SchedState
  | .invokeRun eligible =>
    if s.isProcessing then s
    else { isProcessing := true, activeRuns := eligible :: s.activeRuns,
           invocations := s.invocations }
  | .processOne =>
    match s.activeRuns with
    | (_ :: rest) :: others =>
      { s with activeRuns := rest :: others, invocations := s.invocations + 1 }
    | _ => s
  | .finishRun =>
    match s.activeRuns with
    | [] :: others =>
      { isProcessing := false, activeRuns := others, invocations := s.invocations }
    | _ => s

/-- A whole interleaving of scheduler events. -/
def schedRun (s : SchedState) (evs : List SchedEvent) : SchedState := evs.foldl schedStep s

/-- The scheduler before any cron trigger fires. -/
def initSched : SchedState := { isProcessing := false, activeRuns := [], invocations := 0 }

/-- Total eligible-set size of the run invocations that acquire the guard
along a trace (skipped invocations contribute 0). -/
def acceptedWork : SchedState → List SchedEvent → Nat
  | _, [] => 0
  | s, e :: evs =>
    (match e with
     | .invokeRun eligible => if s.isProcessing then 0 else eligible.length
     | _ => 0) + acceptedWork (schedStep s e) evs

/-- Markets still to be processed by live runs. -/
def remainingWork (s : SchedState) : Nat := (s.activeRuns.map List.length).sum

/-- The guard invariant: no live run without the flag, and never more than
one live run. -/
def SchedWF (s : SchedState) : Prop :=
  s.activeRuns.length ≤ (if s.isProcessing then 1 else 0)

theorem schedStep_wf (s : SchedState) (e : SchedEvent) (h : SchedWF s) :
    SchedWF (schedStep s e) := by
  unfold SchedWF at *
  cases e with
  | invokeRun eligible =>
    by_cases hp : s.isProcessing = true
    · simpa [schedStep, hp] using h
    · have hb : s.isProcessing = false := by simpa using hp
      rw [hb] at h
      simp at h
      simp [schedStep, hb, h]
  | processOne =>
    cases har : s.activeRuns with
    | nil => simp [schedStep, har]
    | cons rh rt =>
      cases rh with
      | nil => simpa [schedStep, har] using h
      | cons m mrest =>
        rw [har] at h
        simp [schedStep, har]
        simpa using h
  | finishRun =>
    cases har : s.activeRuns with
    | nil => simp [schedStep, har]
    | cons rh rt =>
      cases rh with
      | nil =>
        rw [har] at h
        by_cases hp : s.isProcessing = true
        · rw [hp] at h
          simp at h
          simp [schedStep, har, h]
        · have hb : s.isProcessing = false := by simpa using hp
          rw [hb] at h
          simp at h
      | cons m mrest =>
        simpa [schedStep, har] using h

theorem schedRun_wf (evs : List SchedEvent) :
    ∀ s : SchedState, SchedWF s → SchedWF (schedRun s evs) := by
  induction evs with
  | nil => intro s h; exact h
  | cons e evs ih =>
    intro s h
    unfold schedRun at *
    rw [List.foldl_cons]
    exact ih _ (schedStep_wf s e h)

theorem schedStep_accounting (s : SchedState) (e : SchedEvent) :
    (schedStep s e).invocations + remainingWork (schedStep s e)
      = s.invocations + remainingWork s +
        (match e with
         | .invokeRun eligible => if s.isProcessing then 0 else eligible.length
         | _ => 0) := by
  cases e with
  | invokeRun eligible =>
    by_cases hp : s.isProcessing = true
    · simp [schedStep, hp]
    · have hb : s.isProcessing = false := by simpa using hp
      simp [schedStep, hb, remainingWork]
      omega
  | processOne =>
    cases har : s.activeRuns with
    | nil => simp [schedStep, har]
    | cons rh rt =>
      cases rh with
      | nil => simp [schedStep, har]
      | cons m mrest =>
        simp [schedStep, har, remainingWork]
        omega
  | finishRun =>
    cases har : s.activeRuns with
    | nil => simp [schedStep, har]
    | cons rh rt =>
      cases rh with
      | nil => simp [schedStep, har, remainingWork]
      | cons m mrest => simp [schedStep, har]

theorem schedRun_accounting (evs : List SchedEvent) :
    ∀ s : SchedState,
      (schedRun s evs).invocations + remainingWork (schedRun s evs)
        = s.invocations + remainingWork s + acceptedWork s evs := by
  induction evs with
  | nil => intro s; simp [schedRun, acceptedWork]
  | cons e evs ih =>
    intro s
    unfold schedRun at *
    rw [List.foldl_cons, ih (schedStep s e)]
    have hstep := schedStep_accounting s e
    simp only [acceptedWork]
    omega

/-- C8: the `isProcessing` guard serializes settlement runs: (1) a run
invoked while another run is live changes nothing at all — it is skipped,
not queued; (2) along every interleaving of triggers from startup, at most
one run is ever live; (3) whenever all runs have finished, the total number
of pipeline invocations equals the summed eligible-set sizes of exactly the
runs that acquired the guard. -/
theorem C8_scheduler_exclusion :
    (∀ (s : SchedState) (eligible : List String), s.isProcessing = true →
        schedStep s (.invokeRun eligible) = s) ∧
    (∀ evs : List SchedEvent, (schedRun initSched evs).activeRuns.length ≤ 1) ∧
    (∀ evs : List SchedEvent, (schedRun initSched evs).activeRuns = [] →
        (schedRun initSched evs).invocations = acceptedWork initSched evs) := by
  refine ⟨?_, ?_, ?_⟩
  · intro s eligible hp
    simp [schedStep, hp]
  · intro evs
    have hwf : SchedWF (schedRun initSched evs) :=
      schedRun_wf evs initSched (by simp [SchedWF, initSched])
    unfold SchedWF at hwf
    by_cases hp : (schedRun initSched evs).isProcessing = true
    · rwa [hp, if_pos rfl] at hwf
    · have hb : (schedRun initSched evs).isProcessing = false := by simpa using hp
      rw [hb] at hwf
      simp at hwf
      simp [hwf]
  · intro evs hend
    have hacc := schedRun_accounting evs initSched
    have hrem : remainingWork (schedRun initSched evs) = 0 := by
      simp [remainingWork, hend]
    rw [hrem] at hacc
    simpa [initSched, remainingWork] using hacc

/-- A demo interleaving: a first trigger with two eligible markets, a second
trigger that fires mid-run (skipped by the guard), both markets processed,
then the run finishes. -/
def schedDemoTrace : List SchedEvent :=
  [.invokeRun (["m1", "m2"]), .invokeRun (["m3"]), .processOne, .processOne, .finishRun]

theorem C8_scheduler_exclusion_witness :
    schedStep { isProcessing := true, activeRuns := [["m3"]], invocations := 5 }
        (.invokeRun (["m4"]))
      = { isProcessing := true, activeRuns := [["m3"]], invocations := 5 } ∧
    (schedRun initSched schedDemoTrace).activeRuns.length ≤ 1 ∧
    (schedRun initSched schedDemoTrace).invocations = acceptedWork initSched schedDemoTrace :=
  ⟨C8_scheduler_exclusion.1 _ (["m4"]) rfl,
   C8_scheduler_exclusion.2.1 schedDemoTrace,
   C8_scheduler_exclusion.2.2 schedDemoTrace (by decide)⟩

/-- The record invariant of the specification: a record marked processed for
settlement is settled on-chain or carries a recorded winning token. -/
def recordInvariant (m : MarketRow) : Prop :=
  m.processedForSettlement = true →
    (m.isSettledOnChain = true ∨ m.winningTokenId.isSome = true)

instance (m : MarketRow) : Decidable (recordInvariant m) := by
  unfold recordInvariant
  infer_instance

/-- The invariant over every row of the `markets` table. -/
def marketsInvariant (ms : List MarketRow) : Prop := ∀ m ∈ ms, recordInvariant m

/-- The invariant over the store. -/
def storeInvariant (s : DBState) : Prop := marketsInvariant s.markets

/-- The `markets` table after one mutating operation. -/
def opMarkets (c : OpCall) (now : Int) (ms : List MarketRow) : List MarketRow :=
  (c.mutate now ms).1

theorem applyOp_markets (c : OpCall) (now : Int) (s : DBState) :
    ((applyOp c now s).1).markets = opMarkets c now s.markets := rfl

theorem marketsInvariant_map (ms : List MarketRow) (g : MarketRow → MarketRow)
    (h : ∀ r ∈ ms, recordInvariant (g r)) : marketsInvariant (ms.map g) := by
  intro m hm
  rcases List.mem_map.mp hm with ⟨r, hr, rfl⟩
  exact h r hr

theorem inv_upsert (cid creator : String) (now : Int) (ms : List MarketRow)
    (h : marketsInvariant ms) :
    marketsInvariant (opMarkets (.addOrUpdateMarket cid creator) now ms) := by
  simp only [opMarkets, OpCall.mutate]
  unfold upsertMarketRows
  by_cases hex : (ms.any (fun r => r.conditionId == cid)) = true
  · rw [if_pos hex]
    apply marketsInvariant_map
    intro r hr
    by_cases hc : (r.conditionId == cid && !(r.marketCreator == creator)) = true
    · rw [if_pos hc]
      exact h r hr
    · rw [if_neg hc]
      exact h r hr
  · rw [if_neg hex]
    intro m hm
    rcases List.mem_append.mp hm with hm | hm
    · exact h m hm
    · rw [List.mem_singleton] at hm
      rw [hm]
      intro hcon
      simp at hcon

theorem inv_sqlUpdate_safe (cid : String) (extraCond : MarketRow → Bool)
    (f : MarketRow → MarketRow) (now : Int) (ms : List MarketRow)
    (h : marketsInvariant ms)
    (hf : ∀ r, recordInvariant r → recordInvariant { f r with updatedAt := now }) :
    marketsInvariant ((sqlUpdate cid extraCond f now ms).1) := by
  unfold sqlUpdate
  apply marketsInvariant_map
  intro r hr
  by_cases hc : (r.conditionId == cid && extraCond r) = true
  · rw [if_pos hc]
    exact hf r (h r hr)
  · rw [if_neg hc]
    exact h r hr

theorem inv_updEndTime (cid : String) (t now : Int) (ms : List MarketRow)
    (h : marketsInvariant ms) :
    marketsInvariant (opMarkets (.updateMarketEndTime cid t) now ms) := by
  simp only [opMarkets, OpCall.mutate]
  apply inv_sqlUpdate_safe _ _ _ _ _ h
  intro r hri hp
  exact hri hp

theorem inv_updQuestion (cid q : String) (now : Int) (ms : List MarketRow)
    (h : marketsInvariant ms) :
    marketsInvariant (opMarkets (.updateMarketQuestion cid q) now ms) := by
  simp only [opMarkets, OpCall.mutate]
  apply inv_sqlUpdate_safe _ _ _ _ _ h
  intro r hri hp
  exact hri hp

theorem inv_updWinning (cid w : String) (now : Int) (ms : List MarketRow)
    (h : marketsInvariant ms) :
    marketsInvariant (opMarkets (.updateMarketWinningTokenId cid w) now ms) := by
  simp only [opMarkets, OpCall.mutate]
  apply inv_sqlUpdate_safe _ _ _ _ _ h
  intro r _ _
  right
  rfl

theorem inv_incrRetry (cid : String) (now : Int) (ms : List MarketRow)
    (h : marketsInvariant ms) :
    marketsInvariant (opMarkets (.incrementMarketRetryCount cid) now ms) := by
  simp only [opMarkets, OpCall.mutate]
  apply inv_sqlUpdate_safe _ _ _ _ _ h
  intro r hri hp
  exact hri hp

theorem inv_resetRetry (cid : String) (now : Int) (ms : List MarketRow)
    (h : marketsInvariant ms) :
    marketsInvariant (opMarkets (.resetMarketRetryCount cid) now ms) := by
  simp only [opMarkets, OpCall.mutate]
  apply inv_sqlUpdate_safe _ _ _ _ _ h
  intro r hri hp
  exact hri hp

theorem inv_resetProcessed (cid : String) (now : Int) (ms : List MarketRow)
    (h : marketsInvariant ms) :
    marketsInvariant (opMarkets (.resetMarketProcessedStatus cid) now ms) := by
  simp only [opMarkets, OpCall.mutate]
  apply inv_sqlUpdate_safe _ _ _ _ _ h
  intro r _ hp
  simp at hp

theorem inv_updSettledTrue (cid : String) (now : Int) (ms : List MarketRow)
    (h : marketsInvariant ms) :
    marketsInvariant (opMarkets (.updateMarketSettledOnChain cid true) now ms) := by
  simp only [opMarkets, OpCall.mutate]
  apply inv_sqlUpdate_safe _ _ _ _ _ h
  intro r hri hp
  left
  rfl

theorem inv_updSettledFalse (cid : String) (now : Int) (ms : List MarketRow)
    (h : marketsInvariant ms)
    (hpre : ∀ m ∈ ms, m.conditionId = cid → m.processedForSettlement = false) :
    marketsInvariant (opMarkets (.updateMarketSettledOnChain cid false) now ms) := by
  simp only [opMarkets, OpCall.mutate]
  unfold sqlUpdate
  apply marketsInvariant_map
  intro r hr
  by_cases hc : (r.conditionId == cid && true) = true
  · rw [if_pos hc]
    intro hp
    have hcid : r.conditionId = cid := by simpa using hc
    have := hpre r hr hcid
    simp at hp
    exact absurd hp (by simp [this])
  · rw [if_neg hc]
    exact h r hr

theorem inv_processed_then_settledTrue (cid : String) (now : Int) (ms : List MarketRow)
    (h : marketsInvariant ms) :
    marketsInvariant (opMarkets (.updateMarketSettledOnChain cid true) now
      (opMarkets (.setMarketProcessedForSettlement cid) now ms)) := by
  simp only [opMarkets, OpCall.mutate]
  unfold sqlUpdate
  rw [List.map_map]
  intro m hm
  rcases List.mem_map.mp hm with ⟨r, hr, rfl⟩
  by_cases hc : (r.conditionId == cid) = true
  · simp [Function.comp, hc, recordInvariant]
  · simp [Function.comp, hc]
    exact h r hr

theorem inv_settledTrue_then_processed (cid : String) (now : Int) (ms : List MarketRow)
    (h : marketsInvariant ms) :
    marketsInvariant (opMarkets (.setMarketProcessedForSettlement cid) now
      (opMarkets (.updateMarketSettledOnChain cid true) now ms)) := by
  simp only [opMarkets, OpCall.mutate]
  unfold sqlUpdate
  rw [List.map_map]
  intro m hm
  rcases List.mem_map.mp hm with ⟨r, hr, rfl⟩
  by_cases hc : (r.conditionId == cid) = true
  · simp [Function.comp, hc, recordInvariant]
  · simp [Function.comp, hc]
    exact h r hr

theorem fetchQ_invariant (env : ChainEnv) (cid : String) (now : Int) (s : DBState)
    (h : storeInvariant s) : storeInvariant (fetchAndStoreMarketQuestion env cid now s) := by
  unfold fetchAndStoreMarketQuestion
  cases env.chainQuestion with
  | none => exact h
  | some q =>
    by_cases hq : (!(q == "")) = true
    · dsimp only
      rw [if_pos hq]
      unfold storeInvariant
      rw [applyOp_markets]
      exact inv_updQuestion _ _ _ _ h
    · dsimp only
      rw [if_neg hq]
      exact h

theorem endTimeFetch_invariant (env : ChainEnv) (cid : String) (now : Int) (s : DBState)
    (h : storeInvariant s) : storeInvariant (fetchAndStoreMarketEndTime env cid now s) := by
  unfold fetchAndStoreMarketEndTime
  by_cases hc : env.chainEndTime > 0
  · rw [if_pos hc]
    unfold storeInvariant
    rw [applyOp_markets]
    exact inv_updEndTime _ _ _ _ h
  · rw [if_neg hc]
    exact h

theorem resetFailed_invariant (cid : String) (now : Int) (s : DBState)
    (h : storeInvariant s) : storeInvariant (resetFailedMarket cid now s).2 := by
  unfold resetFailedMarket
  cases hg : getMarket s cid with
  | none => exact h
  | some market =>
    dsimp only
    by_cases hc : (!market.processedForSettlement && decide (market.retries > 0)) = true
    · rw [if_pos hc]
      unfold storeInvariant
      rw [applyOp_markets, applyOp_markets]
      exact inv_resetRetry _ _ _ (inv_resetProcessed _ _ _ h)
    · rw [if_neg hc]
      exact h

theorem preSettled_invariant (env : ChainEnv) (cid : String) (now : Int) (s : DBState)
    (h : storeInvariant s) :
    storeInvariant (fetchAndRecordPreSettledMarketDetails env cid now s).2 := by
  unfold fetchAndRecordPreSettledMarketDetails
  by_cases hms : env.marketSettled = true
  · simp only [hms, if_true]
    cases env.winningTokenIdOnChain with
    | none =>
      unfold storeInvariant
      rw [applyOp_markets, applyOp_markets]
      exact inv_settledTrue_then_processed cid now s.markets h
    | some tok =>
      unfold storeInvariant
      rw [applyOp_markets, applyOp_markets, applyOp_markets]
      exact inv_updWinning _ _ _ _ (inv_settledTrue_then_processed cid now s.markets h)
  · have hb : env.marketSettled = false := by simpa using hms
    simp only [hb, Bool.false_eq_true, if_false]
    exact h

theorem processMarket_invariant (env : ChainEnv) (cid : String) (now delay : Int)
    (s : DBState) (h : storeInvariant s) :
    storeInvariant (processMarketAndSettleOnChain env cid now delay s).2.1 := by
  unfold processMarketAndSettleOnChain
  by_cases hms : env.marketSettled = true
  · simp only [hms, if_true]
    unfold storeInvariant
    rw [applyOp_markets, applyOp_markets]
    exact inv_processed_then_settledTrue cid now s.markets h
  · have hb : env.marketSettled = false := by simpa using hms
    simp only [hb, Bool.false_eq_true, if_false]
    cases hg : getMarket s cid with
    | none => exact h
    | some market =>
      dsimp only
      set s1 : DBState := (if !(jsTruthy market.marketQuestion)
        then fetchAndStoreMarketQuestion env cid now s else s) with hs1def
      have h1 : storeInvariant s1 := by
        rw [hs1def]
        by_cases hq : (!(jsTruthy market.marketQuestion)) = true
        · rw [if_pos hq]
          exact fetchQ_invariant env cid now s h
        · rw [if_neg hq]
          exact h
      have hsucc : ∀ w : String, storeInvariant
          ((applyOp (.updateMarketWinningTokenId cid w) now
            ((applyOp (.updateMarketSettledOnChain cid true) now
              ((applyOp (.setMarketProcessedForSettlement cid) now s1).1)).1)).1) := by
        intro w
        unfold storeInvariant
        rw [applyOp_markets, applyOp_markets, applyOp_markets]
        exact inv_updWinning _ _ _ _ (inv_processed_then_settledTrue cid now _ h1)
      have hretry : storeInvariant ((applyOp (.incrementMarketRetryCount cid) now s1).1) := by
        unfold storeInvariant
        rw [applyOp_markets]
        exact inv_incrRetry _ _ _ h1
      split
      · exact h1
      · split_ifs
        · exact h1
        · exact h1
        · exact h1
        · split
          · exact h1
          · split
            · exact hsucc _
            · exact hretry

theorem checkAndProcessOne_invariant (env : ChainEnv) (cid : String) (now delay : Int)
    (s : DBState) (h : storeInvariant s)
    (hpre : ∀ m ∈ s.markets, m.conditionId = cid → m.processedForSettlement = false) :
    storeInvariant (checkAndProcessOne env cid now delay s) := by
  unfold checkAndProcessOne getMarketSettledFromChain
  dsimp only
  by_cases hms : env.marketSettled = true
  · simp only [hms, if_true]
    unfold storeInvariant
    rw [applyOp_markets, applyOp_markets]
    exact inv_settledTrue_then_processed cid now s.markets h
  · have hb : env.marketSettled = false := by simpa using hms
    simp only [hb, Bool.false_eq_true, if_false]
    apply processMarket_invariant
    unfold storeInvariant
    rw [applyOp_markets]
    exact inv_updSettledFalse cid now s.markets h hpre

/-- One complete component invocation against the Entity Store, as the
system's components issue them: an ingestion upsert, the pre-settled check at
ingestion, the metadata backfill fetches, one market of a scheduler run, or
the CLI reset. -/
inductive Invocation
  | ingestEvent (cid creator : String)
  | preSettledCheck (env : ChainEnv) (cid : String)
  | endTimeFetch (env : ChainEnv) (cid : String)
  | questionFetch (env : ChainEnv) (cid : String)
  | schedulerMarket (env : ChainEnv) (cid : String)
  | resetMarket (cid : String)

/-- The store after running a complete invocation. -/
def Invocation.run (now delay : Int) (s : DBState) : Invocation → DBState
  | .ingestEvent cid creator => (applyOp (.addOrUpdateMarket cid creator) now s).1
  | .preSettledCheck env cid => (fetchAndRecordPreSettledMarketDetails env cid now s).2
  | .endTimeFetch env cid => fetchAndStoreMarketEndTime env cid now s
  | .questionFetch env cid => fetchAndStoreMarketQuestion env cid now s
  | .schedulerMarket env cid => checkAndProcessOne env cid now delay s
  | .resetMarket cid => (resetFailedMarket cid now s).2

/-- The scheduler only feeds markets returned by the eligibility query, which
requires `processedForSettlement = 0`; other invocations need nothing. -/
def Invocation.precond (s : DBState) : Invocation → Prop
  | .schedulerMarket _ cid =>
      ∀ m ∈ s.markets, m.conditionId = cid → m.processedForSettlement = false
  | _ => True

/-- C9 (amended): the record invariant — `processedForSettlement = true`
implies `isSettledOnChain = true` or a recorded `winningTokenId` — holds for
every record at the END of every complete component invocation, provided it
held before and the scheduler only processes markets the eligibility query
returned (unprocessed ones).  As stated over every intermediate reachable
state the claim is false (see the counterexample): within one pipeline
invocation `setMarketProcessedForSettlement` commits before
`updateMarketSettledOnChain`, transiently breaking the implication. -/
theorem C9_invariant_end_of_invocation (inv : Invocation) (now delay : Int) (s : DBState)
    (h : storeInvariant s) (hpre : inv.precond s) :
    storeInvariant (inv.run now delay s) := by
  cases inv with
  | ingestEvent cid creator =>
    unfold Invocation.run storeInvariant
    rw [applyOp_markets]
    exact inv_upsert _ _ _ _ h
  | preSettledCheck env cid => exact preSettled_invariant env cid now s h
  | endTimeFetch env cid => exact endTimeFetch_invariant env cid now s h
  | questionFetch env cid => exact fetchQ_invariant env cid now s h
  | schedulerMarket env cid => exact checkAndProcessOne_invariant env cid now delay s h hpre
  | resetMarket cid => exact resetFailed_invariant cid now s h

instance (ms : List MarketRow) : Decidable (marketsInvariant ms) := by
  unfold marketsInvariant
  infer_instance

instance (s : DBState) : Decidable (storeInvariant s) := by
  unfold storeInvariant
  infer_instance

instance (s : DBState) (inv : Invocation) : Decidable (inv.precond s) := by
  cases inv <;> (unfold Invocation.precond; infer_instance)

theorem C9_invariant_end_of_invocation_witness :
    storeInvariant ((Invocation.schedulerMarket envYes cidDemo).run 200 60 dbAA) :=
  C9_invariant_end_of_invocation (.schedulerMarket envYes cidDemo) 200 60 dbAA
    (by decide) (by decide)

/-- The store after the first two operations the scheduler issues for an
eligible market on the success path: `getMarketSettledFromChain` records
not-settled, then `processMarketAndSettleOnChain` marks the market processed
(its `updateMarketSettledOnChain(true)` and `updateMarketWinningTokenId`
writes have not yet run).  Each operation is its own committed transaction,
so this state is reachable. -/
def c9ReachablePrefix : DBState :=
  (applyOp (.setMarketProcessedForSettlement cidDemo) 200
    (applyOp (.updateMarketSettledOnChain cidDemo false) 200
      (applyOp (.addOrUpdateMarket cidDemo creatorDemo) 100 emptyDB).1).1).1

/-- C9 as stated is false: the committed state between the scheduler success
path's `setMarketProcessedForSettlement` and the following
`updateMarketSettledOnChain(true)` has `processedForSettlement = true`,
`isSettledOnChain = false` and no `winningTokenId`. -/
theorem C9_counterexample :
    ¬ storeInvariant c9ReachablePrefix ∧
    Option.map (fun m => (m.processedForSettlement, m.isSettledOnChain, m.winningTokenId))
        (getMarket c9ReachablePrefix cidDemo) = some (true, false, none) := by
  refine ⟨?_, ?_⟩ <;> decide
